import Mathlib

/-!
Verification of the Hearth Writer Model Resource Orchestrator.

This file gives a shallow embedding of the orchestrator subsystem
(src/core/resource_manager.py), of the license tier table that it consults
(src/core/license_validator.py), and of the isolated inference worker
(src/core/inference_process.py), and proves the testable properties stated
in the specification against those definitions.

Modelling conventions:
- Python dictionaries keyed by model name become insertion-ordered lists;
  request appends a fresh slot only when the name is absent, so names stay
  distinct, exactly as in a dict.
- Timestamps from time.time are natural numbers supplied explicitly to each
  operation by the caller of the model.
- The license tier read by can_access_feature at call time is passed as an
  argument to each operation that consults it; the value computed by
  _update_limits at construction time is stored in the state, as in the
  source, where _update_limits is invoked only from the constructor.
- The worker process handle is reduced to the liveness bit that the
  orchestrator observes.
-/

namespace HearthWriter

/-- License tiers, from license_validator.LicenseTier. -/
inductive Tier where
  | ronin
  | architect
  | showrunner
deriving DecidableEq, Repr

/-- LicenseValidator.is_pro: any paid tier. -/
def Tier.is_pro : Tier → Bool
  | .ronin => false
  | .architect => true
  | .showrunner => true

/-- license_validator.FEATURE_TIERS: the feature-to-tier table. -/
def featureTiers : List (String × List Tier) :=
  [ ("shadow_nodes", [.architect, .showrunner]),
  ("visual_tracking", [.architect, .showrunner]),
  ("multi_lora", [.architect, .showrunner]),
  ("timeline_injection", [.architect, .showrunner]),
  ("comic_mode", [.architect, .showrunner]),
  ("collaboration", [.showrunner]),
  ("team_sync", [.showrunner]),
  ("white_labeling", [.showrunner]),
  ("custom_grammars", [.showrunner]),
  ("prose_mode", [.ronin, .architect, .showrunner]),
  ("screenplay_mode", [.ronin, .architect, .showrunner]),
  ("voice_engine", [.ronin, .architect, .showrunner]),
  ("pure_mode", [.ronin, .architect, .showrunner]) ]

/-- LicenseValidator.can_access: a missing feature (empty tier list) is
allowed; otherwise the current tier must be in the list. -/
def can_access (t : Tier) (feature : String) : Bool :=
  let allowed := (((featureTiers.find? (fun p => p.1 == feature)).map Prod.snd).getD [])
  if allowed.isEmpty then true else allowed.contains t

/-- resource_manager.ModelState. -/
inductive ModelState where
  | cold
  | warm
  | hot
  | cooling
deriving DecidableEq, Repr

/-- resource_manager.ModelSlot. -/
structure ModelSlot where
  name : String
  state : ModelState
  last_used : Nat
  keep_warm : Bool
  memory_mb : Nat
deriving DecidableEq, Repr

/-- ResourceOrchestrator.MODEL_MEMORY with the dict.get default of 1024. -/
def modelMemory (name : String) : Nat :=
  if name == "mistral-7b-quantized" then 4096
  else if name == "all-MiniLM-L6-v2" then 256
  else if name == "coqui-tts" then 512
  else 1024

/-- ResourceOrchestrator.IDLE_TIMEOUT_SECONDS. -/
def idleTimeoutSeconds : Nat := 300

/-- The orchestrator state: worker liveness, the slot table
(_model_slots, insertion ordered), the lock set (_active_locks keys,
insertion ordered), and the MAX_CONCURRENT_MODELS value computed by
_update_limits. -/
structure ResourceOrchestrator where
  workerAlive : Bool
  slots : List ModelSlot
  locks : List String
  maxConcurrent : Nat
deriving DecidableEq, Repr

/-- ResourceOrchestrator.__init__ followed by _update_limits, with the
license tier resolved at construction time. -/
def initOrchestrator (t : Tier) : ResourceOrchestrator :=
  { workerAlive := false, slots := [], locks := [],
    maxConcurrent := if t.is_pro then 3 else 1 }

/-- Count of slots whose state is not Cold, as computed at the top of
request_model. -/
def non_cold_count (s : ResourceOrchestrator) : Nat :=
  (s.slots.filter (fun sl => sl.state != ModelState.cold)).length

/-- Dict-key insertion into _active_locks: adding an existing key leaves
the key order unchanged, a new key is appended. -/
def addLock (locks : List String) (name : String) : List String :=
  if locks.contains name then locks else locks ++ [name]

/-- Dict-key deletion from _active_locks. -/
def removeLock (locks : List String) (name : String) : List String :=
  locks.filter (fun m => m != name)

/-- The eviction candidate test inside _unload_oldest_model:
state is not Cold and the name is not locked. -/
def evictionCandidate (locks : List String) (sl : ModelSlot) : Bool :=
  sl.state != ModelState.cold && !(locks.contains sl.name)

/-- The loop of _unload_oldest_model: fold over the slot table keeping the
first slot with the strictly smallest last_used among candidates
(oldest_time starts at Python float inf, so the first candidate is always
taken). -/
def oldestStep (locks : List String) (acc : Option ModelSlot) (sl : ModelSlot) :
    Option ModelSlot :=
  if evictionCandidate locks sl then
    match acc with
    | none => some sl
    | some best => if sl.last_used < best.last_used then some sl else some best
  else acc

/-- The victim selected by _unload_oldest_model, if any. -/
def oldestCandidate (locks : List String) (slots : List ModelSlot) :
    Option ModelSlot :=
  slots.foldl (oldestStep locks) none

/-- Set the state of every slot with the given name (the dict holds at most
one such slot). -/
def setSlotState (name : String) (st : ModelState) (slots : List ModelSlot) :
    List ModelSlot :=
  slots.map (fun sl => if sl.name == name then { sl with state := st } else sl)

/-- ResourceOrchestrator._unload_oldest_model. -/
def unload_oldest_model (s : ResourceOrchestrator) : ResourceOrchestrator :=
  match oldestCandidate s.locks s.slots with
  | none => s
  | some v => { s with slots := setSlotState v.name ModelState.cold s.slots }

/-- The admission check at the top of request_model: when the non-Cold
count has reached MAX_CONCURRENT_MODELS and the live tier cannot access
multi_lora, the orchestrator tries to unload the oldest model. -/
def admission_evict (t : Tier) (s : ResourceOrchestrator) :
    ResourceOrchestrator :=
  if non_cold_count s ≥ s.maxConcurrent && !(can_access t "multi_lora") then
    unload_oldest_model s
  else s

/-- Slot creation in request_model: a never-seen name gets a fresh Cold
slot with the static memory estimate appended to the table. -/
def ensure_slot (name : String) (keepWarm : Bool) (now : Nat)
    (s : ResourceOrchestrator) : ResourceOrchestrator :=
  if s.slots.any (fun sl => sl.name == name) then s
  else { s with slots := s.slots ++
    [{ name := name, state := ModelState.cold, last_used := now,
       keep_warm := keepWarm, memory_mb := modelMemory name }] }

/-- The final update of request_model: stamp last_used and keep_warm, set
the slot Warm, and acquire the lock. -/
def warm_and_lock (name : String) (keepWarm : Bool) (now : Nat)
    (s : ResourceOrchestrator) : ResourceOrchestrator :=
  { s with
    slots := s.slots.map (fun sl =>
      if sl.name == name then
        { sl with last_used := now, keep_warm := keepWarm
                , state := ModelState.warm }
      else sl),
    locks := addLock s.locks name }

/-- ResourceOrchestrator.request_model, with the live tier used by
can_access_feature passed explicitly and time.time passed as now.
The returned handle (the slot itself) is not modelled; only the state
update is. -/
def request_model (t : Tier) (name : String) (keepWarm : Bool) (now : Nat)
    (s : ResourceOrchestrator) : ResourceOrchestrator :=
  warm_and_lock name keepWarm now
    (ensure_slot name keepWarm now (admission_evict t s))

/-- ResourceOrchestrator.release_lock. -/
def release_lock (name : String) (now : Nat) (s : ResourceOrchestrator) :
    ResourceOrchestrator :=
  { s with
    locks := removeLock s.locks name,
    slots := s.slots.map (fun sl =>
      if sl.name == name then
        let sl2 := { sl with last_used := now }
        if sl2.keep_warm then sl2 else { sl2 with state := ModelState.cooling }
      else sl) }

/-- ResourceOrchestrator.check_idle_models (the idle sweep): a Warm or
Cooling slot that is unlocked, idle strictly longer than the timeout, and
not kept warm, becomes Cold. -/
def check_idle_models (now : Nat) (s : ResourceOrchestrator) :
    ResourceOrchestrator :=
  { s with
    slots := s.slots.map (fun sl =>
      if (sl.state == ModelState.warm || sl.state == ModelState.cooling)
          && !(s.locks.contains sl.name)
          && decide (now - sl.last_used > idleTimeoutSeconds)
          && !sl.keep_warm then
        { sl with state := ModelState.cold }
      else sl) }

/-- The slot-table effect of ResourceOrchestrator.generate_text:
ensure the worker is alive, run the task, then check_idle_models. -/
def generate_step (now : Nat) (s : ResourceOrchestrator) :
    ResourceOrchestrator :=
  check_idle_models now { s with workerAlive := true }

/-- ResourceOrchestrator.collapse_to_zero: worker torn down, every slot
Cold, the lock set cleared. The force flag is accepted and, as in the
source body, not consulted. -/
def collapse_to_zero (_force : Bool) (s : ResourceOrchestrator) :
    ResourceOrchestrator :=
  { workerAlive := false,
    slots := s.slots.map (fun sl => { sl with state := ModelState.cold }),
    locks := [],
    maxConcurrent := s.maxConcurrent }

/-- The observable part of ResourceOrchestrator.get_status used by the
properties: worker liveness, the non-Cold slots, the lock list, and the
effective limit. -/
structure StatusSnapshot where
  worker_alive : Bool
  active_models : List (String × ModelState × Nat)
  active_locks : List String
  max_concurrent : Nat
deriving DecidableEq, Repr

/-- ResourceOrchestrator.get_status. -/
def get_status (s : ResourceOrchestrator) : StatusSnapshot :=
  { worker_alive := s.workerAlive,
    active_models := (s.slots.filter (fun sl => sl.state != ModelState.cold)).map
      (fun sl => (sl.name, sl.state, sl.memory_mb)),
    active_locks := s.locks,
    max_concurrent := s.maxConcurrent }

/-- Dict lookup of a slot state by name. -/
def state_of (name : String) (s : ResourceOrchestrator) : Option ModelState :=
  (s.slots.find? (fun sl => sl.name == name)).map ModelSlot.state

/-- The operations a caller can perform on the orchestrator, with the live
tier and clock supplied per call. -/
inductive Op where
  | request (t : Tier) (name : String) (keepWarm : Bool) (now : Nat)
  | release (name : String) (now : Nat)
  | sweep (now : Nat)
  | generate (now : Nat)
  | collapse (force : Bool)
deriving DecidableEq, Repr

/-- One orchestrator operation. -/
def step (s : ResourceOrchestrator) : Op → ResourceOrchestrator
  | .request t n k now => request_model t n k now s
  | .release n now => release_lock n now s
  | .sweep now => check_idle_models now s
  | .generate now => generate_step now s
  | .collapse f => collapse_to_zero f s

/-- Run a sequence of operations. -/
def run (s : ResourceOrchestrator) (ops : List Op) : ResourceOrchestrator :=
  ops.foldl step s

/-- The locking invariant of the data model: every name in the Lock Set has
a slot in state Warm or Hot. -/
def LockedWarm (s : ResourceOrchestrator) : Prop :=
  ∀ n ∈ s.locks, ∃ sl, sl ∈ s.slots ∧ sl.name = n ∧
    (sl.state = ModelState.warm ∨ sl.state = ModelState.hot)

/-- No slot is in the Hot state. -/
def NoHot (s : ResourceOrchestrator) : Prop :=
  ∀ sl ∈ s.slots, sl.state ≠ ModelState.hot

/-- Behavior of the opaque inference runtime for one prompt: either the
exception message thrown by the llama call, or the generated text.  The
runtime is an external library, so its outcome is data carried by the
task. -/
structure PromptSpec where
  prompt : String
  llmFails : Option String
  llmOutput : String
deriving DecidableEq, Repr

/-- Worker-side state of InferenceWorker: the loaded model path, if any
(_llm and _current_model are always set together). -/
structure WorkerState where
  loadedModel : Option String
deriving DecidableEq, Repr

/-- A task on the task queue, with the behavior of the runtime while
loading the given model path (the exception raised, if any) as data. -/
inductive WorkerTask where
  | generate (modelPath : String) (loadFails : Option String) (p : PromptSpec)
  | batchGenerate (modelPath : String) (loadFails : Option String)
      (prompts : List PromptSpec)
  | reloadModel (modelPath : String) (loadFails : Option String)
  | statusProbe
  | poisonPill
deriving DecidableEq, Repr

/-- InferenceWorker._load_model: loading happens only when no model is
loaded or a different path is requested; a loading exception propagates to
the caller (the except clause logs and re-raises). -/
def load_model (w : WorkerState) (path : String) (loadFails : Option String) :
    Except String WorkerState :=
  if w.loadedModel == some path then Except.ok w
  else
    match loadFails with
    | some e => Except.error e
    | none => Except.ok { loadedModel := some path }

/-- The result dictionary of InferenceWorker._generate: the error key, if
any, and the text of the single choice. -/
structure GenResult where
  error : Option String
  text : String
deriving DecidableEq, Repr

/-- InferenceWorker._generate: ensure the model is loaded (a loading
exception propagates), then invoke the runtime; an exception from the
invocation is caught and becomes an error result whose choice text is the
degraded message. -/
def generate_task (w : WorkerState) (path : String) (loadFails : Option String)
    (p : PromptSpec) : Except String (GenResult × WorkerState) :=
  match load_model w path loadFails with
  | Except.error e => Except.error e
  | Except.ok w2 =>
    match p.llmFails with
    | some e =>
      Except.ok ({ error := some e, text := "Generation failed: " ++ e }, w2)
    | none => Except.ok ({ error := none, text := p.llmOutput }, w2)

/-- One element of the results list of _handle_batch_generate. -/
structure BranchResult where
  branch : Nat
  prompt : String
  output : GenResult
deriving DecidableEq, Repr

/-- InferenceWorker._handle_batch_generate: run each prompt through
_generate sequentially, tagging each output with its branch index. -/
def handle_batch (w : WorkerState) (path : String) (loadFails : Option String) :
    List PromptSpec → Nat → Except String (List BranchResult × WorkerState)
  | [], _ => Except.ok ([], w)
  | p :: ps, i =>
    match generate_task w path loadFails p with
    | Except.error e => Except.error e
    | Except.ok (r, w2) =>
      match handle_batch w2 path loadFails ps (i + 1) with
      | Except.error e => Except.error e
      | Except.ok (rs, w3) =>
        Except.ok ({ branch := i, prompt := p.prompt, output := r } :: rs, w3)

/-- A message on the result queue. -/
inductive WorkerResult where
  | gen (r : GenResult)
  | batch (rs : List BranchResult)
  | alive (modelLoaded : Bool) (currentModel : Option String)
  | reloaded (path : String)
  | fatal (e : String)
deriving DecidableEq, Repr

/-- InferenceWorker.run: process queued tasks in order; poison_pill stops
the loop; an exception escaping a task handler (a model-loading failure) is
reported once on the result queue and ends the loop. -/
def worker_run (w : WorkerState) : List WorkerTask → List WorkerResult
  | [] => []
  | task :: ts =>
    match task with
    | WorkerTask.generate path lf p =>
      match generate_task w path lf p with
      | Except.ok (r, w2) => WorkerResult.gen r :: worker_run w2 ts
      | Except.error e => [WorkerResult.fatal e]
    | WorkerTask.batchGenerate path lf ps =>
      match handle_batch w path lf ps 0 with
      | Except.ok (rs, w2) => WorkerResult.batch rs :: worker_run w2 ts
      | Except.error e => [WorkerResult.fatal e]
    | WorkerTask.reloadModel path lf =>
      match load_model { loadedModel := none } path lf with
      | Except.ok w2 => WorkerResult.reloaded path :: worker_run w2 ts
      | Except.error e => [WorkerResult.fatal e]
    | WorkerTask.statusProbe =>
      WorkerResult.alive w.loadedModel.isSome w.loadedModel :: worker_run w ts
    | WorkerTask.poisonPill => []

/-- The per-branch outcome of _generate when loading cannot fail: the
error result on a runtime exception, the plain output otherwise. -/
def expected_output (p : PromptSpec) : GenResult :=
  match p.llmFails with
  | some e => { error := some e, text := "Generation failed: " ++ e }
  | none => { error := none, text := p.llmOutput }

/-- Results of batchGenerate as the specification words them: one result
per prompt, in input order, tagged with its zero-based branch index, each
branch independently subject to the failure handling of generate. -/
def spec_batch_results (i : Nat) : List PromptSpec → List BranchResult
  | [] => []
  | p :: ps =>
    { branch := i, prompt := p.prompt, output := expected_output p } ::
      spec_batch_results (i + 1) ps

/-- Dict lookup of the keep_warm flag by name. -/
def pinned_of (name : String) (s : ResourceOrchestrator) : Option Bool :=
  (s.slots.find? (fun sl => sl.name == name)).map ModelSlot.keep_warm

/-- The spec scenario for LRU eviction: slots A, B, C, all unlocked and not
Cold, last used at times 1, 2, 3, under a concurrency limit of 3. -/
def lruScenario : ResourceOrchestrator :=
  { workerAlive := false,
    slots := [ { name := "A", state := ModelState.cooling, last_used := 1,
                 keep_warm := false, memory_mb := 1024 },
               { name := "B", state := ModelState.cooling, last_used := 2,
                 keep_warm := false, memory_mb := 1024 },
               { name := "C", state := ModelState.cooling, last_used := 3,
                 keep_warm := false, memory_mb := 1024 } ],
    locks := [],
    maxConcurrent := 3 }

theorem contains_eq_true_iff {l : List String} {a : String} :
    l.contains a = true ↔ a ∈ l := by
  simp [List.contains, List.elem_iff]

theorem maxConcurrent_unload (s : ResourceOrchestrator) :
    (unload_oldest_model s).maxConcurrent = s.maxConcurrent := by
  unfold unload_oldest_model
  cases oldestCandidate s.locks s.slots <;> rfl

/-- C1: the claim is refuted on the code.  Under the Base tier the limit is
1 and multi-model use is not permitted, yet after request of m1 (which
acquires a lock) followed by request of m2, the eviction attempt finds no
unlocked victim, m2 is admitted anyway, and the state observable after the
second request returns holds 2 non-Cold slots, exceeding max 1 1 = 1. -/
theorem c1_counterexample :
    max 1 (run (initOrchestrator Tier.ronin)
        [Op.request Tier.ronin "m1" false 0,
         Op.request Tier.ronin "m2" false 1]).maxConcurrent <
      non_cold_count (run (initOrchestrator Tier.ronin)
        [Op.request Tier.ronin "m1" false 0,
         Op.request Tier.ronin "m2" false 1]) := by
  decide

/-- C2: the claim is refuted on the code.  A limit of 3 is produced only by
a paid tier (is_pro), and every paid tier may access multi_lora, so the
eviction branch of request_model is skipped: requesting a fourth model D
over slots A, B, C leaves A in Cooling instead of transitioning it to
Cold. -/
theorem c2_counterexample :
    state_of "A" (request_model Tier.architect "D" false 4 lruScenario) =
        some ModelState.cooling ∧
      state_of "A" (request_model Tier.architect "D" false 4 lruScenario) ≠
        some ModelState.cold ∧
      Tier.is_pro Tier.architect = true ∧ lruScenario.maxConcurrent = 3 := by
  decide

/-- C2 amended: the scenario state is reachable (built here under a paid
tier), and the LRU eviction of exactly slot A does occur, but only when the
live tier of the requester does not permit multi-model use (here the Base
tier): then A, the slot with the smallest last_used, transitions to Cold
while B and C are untouched and D becomes Warm.  With a paid-tier caller
(the only tier consistent with a limit of 3) nothing is evicted. -/
theorem c2_lru_eviction :
    lruScenario = run (initOrchestrator Tier.architect)
        [Op.request Tier.architect "A" false 1, Op.release "A" 1,
         Op.request Tier.architect "B" false 2, Op.release "B" 2,
         Op.request Tier.architect "C" false 3, Op.release "C" 3] ∧
      state_of "A" (request_model Tier.ronin "D" false 4 lruScenario) =
        some ModelState.cold ∧
      state_of "B" (request_model Tier.ronin "D" false 4 lruScenario) =
        some ModelState.cooling ∧
      state_of "C" (request_model Tier.ronin "D" false 4 lruScenario) =
        some ModelState.cooling ∧
      state_of "D" (request_model Tier.ronin "D" false 4 lruScenario) =
        some ModelState.warm := by
  decide

/-- C4: the claim is refuted on the code.  The eviction loop of
_unload_oldest_model checks only that a slot is not Cold and not locked; it
never consults keep_warm.  Requesting A with keepWarm true, releasing it
(the slot stays Warm and pinned, unlocked), then requesting B under the
Base-tier limit evicts the pinned slot A to Cold. -/
theorem c4_counterexample :
    pinned_of "A" (run (initOrchestrator Tier.ronin)
        [Op.request Tier.ronin "A" true 1, Op.release "A" 2]) = some true ∧
      state_of "A" (run (initOrchestrator Tier.ronin)
        [Op.request Tier.ronin "A" true 1, Op.release "A" 2]) =
        some ModelState.warm ∧
      ("A" ∈ (run (initOrchestrator Tier.ronin)
        [Op.request Tier.ronin "A" true 1, Op.release "A" 2]).locks → False) ∧
      state_of "A" (run (initOrchestrator Tier.ronin)
        [Op.request Tier.ronin "A" true 1, Op.release "A" 2,
         Op.request Tier.ronin "B" false 3]) = some ModelState.cold := by
  decide

/-- C6: the claim is refuted on the code at the timeout boundary.  After
request of m1 at time 0 and release at time 0, a sweep at time 300 sees an
elapsed idle time of exactly idleTimeout = 300 seconds; the sweep condition
is strict (idle_time > 300), so the slot stays Cooling although the claim
(elapsed at least 300) demands Cold. -/
theorem c6_counterexample :
    state_of "m1" (run (initOrchestrator Tier.ronin)
        [Op.request Tier.ronin "m1" false 0, Op.release "m1" 0,
         Op.sweep 300]) = some ModelState.cooling ∧
      state_of "m1" (run (initOrchestrator Tier.ronin)
        [Op.request Tier.ronin "m1" false 0, Op.release "m1" 0,
         Op.sweep 300]) ≠ some ModelState.cold := by
  decide

/-- C6 amended: request of m1 with keepWarm false followed by release and
an immediate sweep leaves the slot Cooling, not Cold; once the idle time
strictly exceeds idleTimeout (here 301 > 300), a subsequent sweep
transitions the slot to Cold. -/
theorem c6_cooling_then_cold :
    state_of "m1" (run (initOrchestrator Tier.ronin)
        [Op.request Tier.ronin "m1" false 0, Op.release "m1" 0,
         Op.sweep 0]) = some ModelState.cooling ∧
      state_of "m1" (run (initOrchestrator Tier.ronin)
        [Op.request Tier.ronin "m1" false 0, Op.release "m1" 0,
         Op.sweep 0, Op.sweep 301]) = some ModelState.cold := by
  decide

/-- C8: the claim is refuted on the code.  _update_limits runs only in the
constructor; request_model never recomputes the limit.  An orchestrator
constructed under the Base tier keeps maxConcurrent = 1, and a request by
a paid-tier (Architect) caller still sees effective limit 1, not a limit
greater than 1. -/
theorem c8_counterexample :
    Tier.is_pro Tier.architect = true ∧
      (request_model Tier.architect "m" false 0
        (initOrchestrator Tier.ronin)).maxConcurrent = 1 := by
  decide

/-- C8 amended: the effective maxConcurrentModels limit is computed from
the license tier once, at construction (Base tier 1, paid tiers 3 > 1),
and request_model leaves it unchanged; only the multi-model permission is
consulted live on each request. -/
theorem c8_limit_fixed_at_init :
    (∀ t : Tier, (initOrchestrator t).maxConcurrent =
        if t.is_pro then 3 else 1) ∧
      (∀ (t : Tier) (n : String) (k : Bool) (now : Nat)
          (s : ResourceOrchestrator),
        (request_model t n k now s).maxConcurrent = s.maxConcurrent) ∧
      (initOrchestrator Tier.ronin).maxConcurrent = 1 ∧
      1 < (initOrchestrator Tier.architect).maxConcurrent ∧
      1 < (initOrchestrator Tier.showrunner).maxConcurrent := by
  refine ⟨fun t => rfl, ?_, rfl, by decide, by decide⟩
  intro t n k now s
  simp only [request_model, warm_and_lock]
  have h1 : (admission_evict t s).maxConcurrent = s.maxConcurrent := by
    unfold admission_evict
    split
    · exact maxConcurrent_unload s
    · rfl
  have h2 : ∀ s2 : ResourceOrchestrator,
      (ensure_slot n k now s2).maxConcurrent = s2.maxConcurrent := by
    intro s2
    unfold ensure_slot
    split <;> rfl
  rw [h2, h1]

theorem oldestStep_eq_none {locks : List String} {acc : Option ModelSlot}
    {a : ModelSlot} (h : oldestStep locks acc a = none) :
    acc = none ∧ evictionCandidate locks a = false := by
  unfold oldestStep at h
  cases hc : evictionCandidate locks a with
  | false => rw [hc] at h; simp at h; exact ⟨h, rfl⟩
  | true =>
    rw [hc] at h
    simp only [if_true] at h
    cases acc with
    | none => simp at h
    | some b =>
      dsimp only at h
      split at h <;> simp at h

theorem oldestStep_not_cand {locks : List String} {acc : Option ModelSlot}
    {a : ModelSlot} (h : evictionCandidate locks a = false) :
    oldestStep locks acc a = acc := by
  unfold oldestStep
  rw [h]
  simp

theorem oldestStep_some_cases {locks : List String} {acc : Option ModelSlot}
    {a w : ModelSlot} (h : oldestStep locks acc a = some w) :
    (w = a ∧ evictionCandidate locks a = true) ∨ acc = some w := by
  unfold oldestStep at h
  cases hc : evictionCandidate locks a with
  | false => rw [hc] at h; simp at h; exact Or.inr h
  | true =>
    rw [hc] at h
    simp only [if_true] at h
    cases acc with
    | none => simp at h; exact Or.inl ⟨h.symm, rfl⟩
    | some b =>
      dsimp only at h
      split at h
      · exact Or.inl ⟨(Option.some.inj h).symm, rfl⟩
      · exact Or.inr (by rw [Option.some.inj h])

theorem oldestStep_some_of_cand {locks : List String} {acc : Option ModelSlot}
    {a : ModelSlot} (hc : evictionCandidate locks a = true) :
    ∃ w, oldestStep locks acc a = some w := by
  unfold oldestStep
  rw [hc]
  simp only [if_true]
  cases acc with
  | none => exact ⟨a, rfl⟩
  | some b =>
    dsimp only
    split
    · exact ⟨a, rfl⟩
    · exact ⟨b, rfl⟩

theorem oldestStep_le_of_cand {locks : List String} {acc : Option ModelSlot}
    {a w : ModelSlot} (hc : evictionCandidate locks a = true)
    (h : oldestStep locks acc a = some w) : w.last_used ≤ a.last_used := by
  unfold oldestStep at h
  rw [hc] at h
  simp only [if_true] at h
  cases acc with
  | none => simp at h; rw [h]
  | some b =>
    dsimp only at h
    split at h
    · rw [← Option.some.inj h]
    · rw [← Option.some.inj h]
      next hlt => exact Nat.le_of_not_lt hlt

theorem oldestStep_le_of_acc {locks : List String} {acc : Option ModelSlot}
    {a w b : ModelSlot} (h : oldestStep locks acc a = some w)
    (hb : acc = some b) : w.last_used ≤ b.last_used := by
  subst hb
  unfold oldestStep at h
  cases hc : evictionCandidate locks a with
  | false => rw [hc] at h; simp at h; rw [h]
  | true =>
    rw [hc] at h
    simp only [if_true] at h
    split at h
    · next hlt => rw [← Option.some.inj h]; exact Nat.le_of_lt hlt
    · rw [← Option.some.inj h]

theorem oldestStep_isSome {locks : List String} {acc : Option ModelSlot}
    {a : ModelSlot} {b : ModelSlot} (hb : acc = some b) :
    ∃ w, oldestStep locks acc a = some w := by
  subst hb
  cases hc : evictionCandidate locks a with
  | false => exact ⟨b, oldestStep_not_cand hc⟩
  | true => exact oldestStep_some_of_cand hc

theorem oldest_foldl_none (locks : List String) (l : List ModelSlot) :
    ∀ acc, l.foldl (oldestStep locks) acc = none →
      acc = none ∧ ∀ c ∈ l, evictionCandidate locks c = false := by
  induction l with
  | nil => intro acc h; exact ⟨h, by simp⟩
  | cons a l ih =>
    intro acc h
    rw [List.foldl_cons] at h
    obtain ⟨h1, h2⟩ := ih _ h
    obtain ⟨h3, h4⟩ := oldestStep_eq_none h1
    refine ⟨h3, ?_⟩
    intro c hc
    rcases List.mem_cons.mp hc with rfl | hcl
    · exact h4
    · exact h2 c hcl

theorem oldest_foldl_some (locks : List String) (l : List ModelSlot) :
    ∀ acc v, l.foldl (oldestStep locks) acc = some v →
      ((v ∈ l ∧ evictionCandidate locks v = true) ∨ acc = some v) ∧
        (∀ c ∈ l, evictionCandidate locks c = true →
          v.last_used ≤ c.last_used) ∧
        (∀ b, acc = some b → v.last_used ≤ b.last_used) := by
  induction l with
  | nil =>
    intro acc v h
    simp only [List.foldl_nil] at h
    refine ⟨Or.inr h, by simp, ?_⟩
    intro b hb
    rw [h] at hb
    rw [Option.some.inj hb]
  | cons a l ih =>
    intro acc v h
    rw [List.foldl_cons] at h
    obtain ⟨H1, H2, H3⟩ := ih _ _ h
    refine ⟨?_, ?_, ?_⟩
    · rcases H1 with ⟨hv, hc⟩ | hacc
      · exact Or.inl ⟨List.mem_cons_of_mem _ hv, hc⟩
      · rcases oldestStep_some_cases hacc with ⟨rfl, hc⟩ | h2
        · exact Or.inl ⟨List.mem_cons_self _ _, hc⟩
        · exact Or.inr h2
    · intro c hc hcc
      rcases List.mem_cons.mp hc with rfl | hcl
      · obtain ⟨w, hw⟩ := @oldestStep_some_of_cand locks acc c hcc
        exact le_trans (H3 w hw) (oldestStep_le_of_cand hcc hw)
      · exact H2 c hcl hcc
    · intro b hb
      obtain ⟨w, hw⟩ := @oldestStep_isSome locks acc a b hb
      exact le_trans (H3 w hw) (oldestStep_le_of_acc hw hb)

theorem oldestCandidate_eq_none {locks : List String} {l : List ModelSlot}
    (h : oldestCandidate locks l = none) :
    ∀ c ∈ l, evictionCandidate locks c = false :=
  (oldest_foldl_none locks l none h).2

theorem oldestCandidate_eq_some {locks : List String} {l : List ModelSlot}
    {v : ModelSlot} (h : oldestCandidate locks l = some v) :
    v ∈ l ∧ evictionCandidate locks v = true ∧
      ∀ c ∈ l, evictionCandidate locks c = true →
        v.last_used ≤ c.last_used := by
  obtain ⟨H1, H2, _⟩ := oldest_foldl_some locks l none v h
  rcases H1 with ⟨hv, hc⟩ | hacc
  · exact ⟨hv, hc, H2⟩
  · simp at hacc

theorem cand_not_locked {locks : List String} {sl : ModelSlot}
    (h : evictionCandidate locks sl = true) : sl.name ∉ locks := by
  intro hm
  rw [evictionCandidate, contains_eq_true_iff.mpr hm] at h
  simp at h

theorem cand_not_cold {locks : List String} {sl : ModelSlot}
    (h : evictionCandidate locks sl = true) :
    sl.state ≠ ModelState.cold := by
  rw [evictionCandidate] at h
  simp only [Bool.and_eq_true, bne_iff_ne, ne_eq] at h
  exact h.1

theorem locked_of_not_cand {locks : List String} {sl : ModelSlot}
    (h : evictionCandidate locks sl = false)
    (hs : sl.state ≠ ModelState.cold) : sl.name ∈ locks := by
  rw [evictionCandidate] at h
  rcases Bool.and_eq_false_iff.mp h with h1 | h1
  · exact absurd (by simpa using h1) hs
  · exact contains_eq_true_iff.mp (by simpa using h1)

theorem find?_name_map (g : ModelSlot → ModelSlot)
    (hg : ∀ sl, (g sl).name = sl.name) (l : List ModelSlot) (n : String) :
    (l.map g).find? (fun sl => sl.name == n) =
      (l.find? (fun sl => sl.name == n)).map g := by
  induction l with
  | nil => rfl
  | cons a l ih =>
    simp only [List.map_cons, List.find?_cons, hg a]
    cases h : (a.name == n) with
    | false => simpa [h] using ih
    | true => simp [h]

theorem map_eq_self_of_eq {l : List ModelSlot} {f : ModelSlot → ModelSlot}
    (h : ∀ a ∈ l, f a = a) : l.map f = l := by
  calc l.map f = l.map id := List.map_congr_left h
  _ = l := List.map_id l

theorem locks_unload (s : ResourceOrchestrator) :
    (unload_oldest_model s).locks = s.locks := by
  unfold unload_oldest_model
  cases oldestCandidate s.locks s.slots <;> rfl

theorem mem_slots_unload_of_locked {s : ResourceOrchestrator}
    {sl : ModelSlot} (hsl : sl ∈ s.slots) (hlk : sl.name ∈ s.locks) :
    sl ∈ (unload_oldest_model s).slots := by
  unfold unload_oldest_model
  cases hc : oldestCandidate s.locks s.slots with
  | none => exact hsl
  | some v =>
    have hv : v.name ∉ s.locks := cand_not_locked (oldestCandidate_eq_some hc).2.1
    have hne : (sl.name == v.name) = false := by
      rw [beq_eq_false_iff_ne]
      intro he
      exact hv (he ▸ hlk)
    show sl ∈ setSlotState v.name ModelState.cold s.slots
    unfold setSlotState
    refine List.mem_map.mpr ⟨sl, hsl, ?_⟩
    simp [hne]

theorem lockedWarm_init (t : Tier) : LockedWarm (initOrchestrator t) := by
  intro n hn
  simp [initOrchestrator] at hn

theorem lockedWarm_admission (t : Tier) (s : ResourceOrchestrator)
    (h : LockedWarm s) : LockedWarm (admission_evict t s) := by
  unfold admission_evict
  split
  · intro n hn
    rw [locks_unload] at hn
    obtain ⟨sl, hsl, hname, hst⟩ := h n hn
    exact ⟨sl, mem_slots_unload_of_locked hsl (by rw [hname]; exact hn),
      hname, hst⟩
  · exact h

theorem lockedWarm_ensure (name : String) (k : Bool) (now : Nat)
    (s : ResourceOrchestrator) (h : LockedWarm s) :
    LockedWarm (ensure_slot name k now s) := by
  unfold ensure_slot
  split
  · exact h
  · intro n hn
    obtain ⟨sl, hsl, hname, hst⟩ := h n hn
    exact ⟨sl, List.mem_append_left _ hsl, hname, hst⟩

theorem exists_named_ensure (name : String) (k : Bool) (now : Nat)
    (s : ResourceOrchestrator) :
    ∃ sl, sl ∈ (ensure_slot name k now s).slots ∧ sl.name = name := by
  unfold ensure_slot
  split
  · next hany =>
    obtain ⟨sl, hsl, hb⟩ := List.any_eq_true.mp hany
    exact ⟨sl, hsl, by simpa using hb⟩
  · exact ⟨_, List.mem_append_right _ (List.mem_singleton_self _), rfl⟩

theorem lockedWarm_warm_lock (name : String) (k : Bool) (now : Nat)
    (s : ResourceOrchestrator)
    (hex : ∃ sl, sl ∈ s.slots ∧ sl.name = name) (h : LockedWarm s) :
    LockedWarm (warm_and_lock name k now s) := by
  intro n hn
  by_cases hzn : n = name
  · subst hzn
    obtain ⟨sl, hsl, hname⟩ := hex
    have hbt : (sl.name == n) = true := by rw [beq_iff_eq]; exact hname
    refine ⟨ModelSlot.mk sl.name ModelState.warm now k sl.memory_mb,
      ?_, hname, Or.inl rfl⟩
    refine List.mem_map.mpr ⟨sl, hsl, ?_⟩
    simp [hbt]
  · have hn2 : n ∈ s.locks := by
      have hn2 : n ∈ addLock s.locks name := hn
      unfold addLock at hn2
      split at hn2
      · exact hn2
      · rcases List.mem_append.mp hn2 with h1 | h1
        · exact h1
        · exact absurd (List.mem_singleton.mp h1) hzn
    obtain ⟨sl, hsl, hname, hst⟩ := h n hn2
    have hne : (sl.name == name) = false := by
      rw [beq_eq_false_iff_ne, hname]
      exact hzn
    refine ⟨sl, ?_, hname, hst⟩
    refine List.mem_map.mpr ⟨sl, hsl, ?_⟩
    simp [hne]

theorem lockedWarm_request (t : Tier) (name : String) (k : Bool) (now : Nat)
    (s : ResourceOrchestrator) (h : LockedWarm s) :
    LockedWarm (request_model t name k now s) :=
  lockedWarm_warm_lock name k now _
    (exists_named_ensure name k now _)
    (lockedWarm_ensure name k now _ (lockedWarm_admission t s h))

theorem lockedWarm_release (name : String) (now : Nat)
    (s : ResourceOrchestrator) (h : LockedWarm s) :
    LockedWarm (release_lock name now s) := by
  intro n hn
  have hn2 : n ∈ removeLock s.locks name := hn
  rw [removeLock, List.mem_filter] at hn2
  obtain ⟨hnl, hne0⟩ := hn2
  have hnn : n ≠ name := by simpa using hne0
  obtain ⟨sl, hsl, hname, hst⟩ := h n hnl
  have hne : (sl.name == name) = false := by
    rw [beq_eq_false_iff_ne, hname]
    exact hnn
  refine ⟨sl, ?_, hname, hst⟩
  show sl ∈ (release_lock name now s).slots
  unfold release_lock
  refine List.mem_map.mpr ⟨sl, hsl, ?_⟩
  simp [hne]

theorem lockedWarm_sweep (now : Nat) (s : ResourceOrchestrator)
    (h : LockedWarm s) : LockedWarm (check_idle_models now s) := by
  intro n hn
  obtain ⟨sl, hsl, hname, hst⟩ := h n hn
  have hcont : s.locks.contains sl.name = true :=
    contains_eq_true_iff.mpr (by rw [hname]; exact hn)
  refine ⟨sl, ?_, hname, hst⟩
  show sl ∈ (check_idle_models now s).slots
  unfold check_idle_models
  refine List.mem_map.mpr ⟨sl, hsl, ?_⟩
  rw [hcont]
  simp

theorem lockedWarm_collapse (f : Bool) (s : ResourceOrchestrator) :
    LockedWarm (collapse_to_zero f s) := by
  intro n hn
  simp [collapse_to_zero] at hn

theorem lockedWarm_generate (now : Nat) (s : ResourceOrchestrator)
    (h : LockedWarm s) : LockedWarm (generate_step now s) :=
  lockedWarm_sweep now { s with workerAlive := true } h

theorem lockedWarm_step (s : ResourceOrchestrator) (op : Op)
    (h : LockedWarm s) : LockedWarm (step s op) := by
  cases op with
  | request t n k now => exact lockedWarm_request t n k now s h
  | release n now => exact lockedWarm_release n now s h
  | sweep now => exact lockedWarm_sweep now s h
  | generate now => exact lockedWarm_generate now s h
  | collapse f => exact lockedWarm_collapse f s

theorem lockedWarm_run (ops : List Op) :
    ∀ s, LockedWarm s → LockedWarm (run s ops) := by
  induction ops with
  | nil => intro s h; exact h
  | cons op ops ih =>
    intro s h
    exact ih (step s op) (lockedWarm_step s op h)

theorem noHot_init (t : Tier) : NoHot (initOrchestrator t) := by
  intro sl hsl
  simp [initOrchestrator] at hsl

theorem noHot_map (g : ModelSlot → ModelSlot)
    (hg : ∀ x, x.state ≠ ModelState.hot → (g x).state ≠ ModelState.hot)
    {l : List ModelSlot} (h : ∀ sl ∈ l, sl.state ≠ ModelState.hot) :
    ∀ sl ∈ l.map g, sl.state ≠ ModelState.hot := by
  intro sl hsl
  obtain ⟨x, hx, rfl⟩ := List.mem_map.mp hsl
  exact hg x (h x hx)

theorem noHot_unload (s : ResourceOrchestrator) (h : NoHot s) :
    NoHot (unload_oldest_model s) := by
  unfold unload_oldest_model
  cases oldestCandidate s.locks s.slots with
  | none => exact h
  | some v =>
    intro sl hsl
    refine noHot_map _ ?_ h sl hsl
    intro x hx
    dsimp only
    split
    · simp
    · exact hx

theorem noHot_step (s : ResourceOrchestrator) (op : Op) (h : NoHot s) :
    NoHot (step s op) := by
  cases op with
  | request t name k now =>
    show NoHot (warm_and_lock name k now
      (ensure_slot name k now (admission_evict t s)))
    have h1 : NoHot (admission_evict t s) := by
      unfold admission_evict
      split
      · exact noHot_unload s h
      · exact h
    have h2 : NoHot (ensure_slot name k now (admission_evict t s)) := by
      unfold ensure_slot
      split
      · exact h1
      · intro sl hsl
        rcases List.mem_append.mp hsl with h3 | h3
        · exact h1 sl h3
        · rw [List.mem_singleton.mp h3]
          simp
    intro sl hsl
    refine noHot_map _ ?_ h2 sl hsl
    intro x hx
    dsimp only
    split
    · simp
    · exact hx
  | release name now =>
    intro sl hsl
    refine noHot_map _ ?_ h sl hsl
    intro x hx
    dsimp only
    split
    · split
      · exact hx
      · simp
    · exact hx
  | sweep now =>
    intro sl hsl
    refine noHot_map _ ?_ h sl hsl
    intro x hx
    dsimp only
    split
    · simp
    · exact hx
  | generate now =>
    intro sl hsl
    refine noHot_map _ ?_ h sl hsl
    intro x hx
    dsimp only
    split
    · simp
    · exact hx
  | collapse f =>
    intro sl hsl
    refine noHot_map _ ?_ h sl hsl
    intro x hx
    simp

theorem noHot_run (ops : List Op) :
    ∀ s, NoHot s → NoHot (run s ops) := by
  induction ops with
  | nil => intro s h; exact h
  | cons op ops ih =>
    intro s h
    exact ih (step s op) (noHot_step s op h)

/-- C3: in every state reachable by any sequence of request, release,
sweepIdle, generate and collapseToZero operations from a fresh
orchestrator, every name in the Lock Set has a slot in state Warm or Hot;
moreover, in any state whatsoever, neither the idle sweep nor the
admission-time eviction changes the state of a locked slot (so neither can
transition it to Cold). -/
theorem c3_locked_never_cold :
    (∀ (t : Tier) (ops : List Op) (n : String),
        n ∈ (run (initOrchestrator t) ops).locks →
        ∃ sl, sl ∈ (run (initOrchestrator t) ops).slots ∧ sl.name = n ∧
          (sl.state = ModelState.warm ∨ sl.state = ModelState.hot)) ∧
      (∀ (s : ResourceOrchestrator) (n : String) (now : Nat), n ∈ s.locks →
        state_of n (check_idle_models now s) = state_of n s ∧
          state_of n (unload_oldest_model s) = state_of n s) := by
  constructor
  · intro t ops n hn
    exact lockedWarm_run ops (initOrchestrator t) (lockedWarm_init t) n hn
  · intro s n now hn
    constructor
    · unfold state_of check_idle_models
      rw [find?_name_map _ (fun x => by split <;> rfl) _ n]
      cases hf : s.slots.find? (fun sl => sl.name == n) with
      | none => rfl
      | some sl =>
        have hname : sl.name = n := by simpa using List.find?_some hf
        have hmem : sl.name ∈ s.locks := by rw [hname]; exact hn
        simp [hmem]
    · unfold unload_oldest_model
      cases hc : oldestCandidate s.locks s.slots with
      | none => rfl
      | some v =>
        unfold state_of setSlotState
        rw [find?_name_map _ (fun x => by split <;> rfl) _ n]
        cases hf : s.slots.find? (fun sl => sl.name == n) with
        | none => rfl
        | some sl =>
          have hname : sl.name = n := by simpa using List.find?_some hf
          have hv : v.name ∉ s.locks :=
            cand_not_locked (oldestCandidate_eq_some hc).2.1
          have hne2 : sl.name ≠ v.name := by
            rw [hname]
            intro he
            exact hv (he ▸ hn)
          simp [hne2]

/-- Witness for C3 at a concrete reachable state: after requesting m1, the
name m1 is locked and its slot is Warm, and neither the sweep nor the
eviction changes its state. -/
theorem c3_locked_never_cold_witness :
    ("m1" ∈ (run (initOrchestrator Tier.ronin)
        [Op.request Tier.ronin "m1" false 0]).locks) ∧
      (∃ sl, sl ∈ (run (initOrchestrator Tier.ronin)
          [Op.request Tier.ronin "m1" false 0]).slots ∧ sl.name = "m1" ∧
          (sl.state = ModelState.warm ∨ sl.state = ModelState.hot)) ∧
      (state_of "m1" (check_idle_models 400 (run (initOrchestrator Tier.ronin)
          [Op.request Tier.ronin "m1" false 0])) =
        state_of "m1" (run (initOrchestrator Tier.ronin)
          [Op.request Tier.ronin "m1" false 0]) ∧
        state_of "m1" (unload_oldest_model (run (initOrchestrator Tier.ronin)
          [Op.request Tier.ronin "m1" false 0])) =
        state_of "m1" (run (initOrchestrator Tier.ronin)
          [Op.request Tier.ronin "m1" false 0])) :=
  ⟨by decide,
   c3_locked_never_cold.1 Tier.ronin [Op.request Tier.ronin "m1" false 0]
     "m1" (by decide),
   c3_locked_never_cold.2 (run (initOrchestrator Tier.ronin)
     [Op.request Tier.ronin "m1" false 0]) "m1" 400 (by decide)⟩

/-- C10: no orchestrator operation ever assigns the Hot state: in every
reachable state every slot is Cold, Warm or Cooling, and accordingly the
Hot state never appears among the non-Cold slot entries of status(). -/
theorem c10_no_hot_state :
    (∀ (t : Tier) (ops : List Op) (sl : ModelSlot),
        sl ∈ (run (initOrchestrator t) ops).slots →
        sl.state ≠ ModelState.hot) ∧
      (∀ (t : Tier) (ops : List Op) (e : String × ModelState × Nat),
        e ∈ (get_status (run (initOrchestrator t) ops)).active_models →
        e.2.1 ≠ ModelState.hot) := by
  constructor
  · intro t ops sl hsl
    exact noHot_run ops (initOrchestrator t) (noHot_init t) sl hsl
  · intro t ops e he
    simp only [get_status] at he
    obtain ⟨sl, hsl, rfl⟩ := List.mem_map.mp he
    exact noHot_run ops (initOrchestrator t) (noHot_init t) sl
      (List.mem_filter.mp hsl).1

/-- Witness for C10: the slot created by a request is Warm, not Hot. -/
theorem c10_no_hot_state_witness :
    ((ModelSlot.mk "m1" ModelState.warm 0 false 1024) ∈
        (run (initOrchestrator Tier.ronin)
          [Op.request Tier.ronin "m1" false 0]).slots) ∧
      (ModelSlot.mk "m1" ModelState.warm 0 false 1024).state ≠
        ModelState.hot :=
  ⟨by decide,
   c10_no_hot_state.1 Tier.ronin [Op.request Tier.ronin "m1" false 0]
     (ModelSlot.mk "m1" ModelState.warm 0 false 1024) (by decide)⟩

/-- C5: collapse_to_zero is idempotent (a second call leaves the entire
state unchanged), its observable status is worker_alive false, no active
models and an empty lock set, and calling it in a reachable state with no
live worker and every slot Cold is a no-op.  The modelled operation is a
total function, so no exception is possible. -/
theorem c5_collapse_idempotent :
    (∀ (f g : Bool) (s : ResourceOrchestrator),
        collapse_to_zero f (collapse_to_zero g s) = collapse_to_zero g s) ∧
      (∀ (f : Bool) (s : ResourceOrchestrator),
        get_status (collapse_to_zero f s) =
          { worker_alive := false, active_models := [], active_locks := [],
            max_concurrent := s.maxConcurrent }) ∧
      (∀ (t : Tier) (ops : List Op) (f : Bool),
        (run (initOrchestrator t) ops).workerAlive = false →
        (∀ sl ∈ (run (initOrchestrator t) ops).slots,
          sl.state = ModelState.cold) →
        collapse_to_zero f (run (initOrchestrator t) ops) =
          run (initOrchestrator t) ops) := by
  refine ⟨?_, ?_, ?_⟩
  · intro f g s
    simp only [collapse_to_zero, List.map_map]
    congr 1
  · intro f s
    have hnil : ((s.slots.map
        (fun sl => { sl with state := ModelState.cold })).filter
        (fun sl => sl.state != ModelState.cold)) = [] := by
      rw [List.filter_eq_nil_iff]
      intro a ha
      obtain ⟨x, hx, rfl⟩ := List.mem_map.mp ha
      simp
    simp [get_status, collapse_to_zero, hnil]
  · intro t ops f h1 h2
    have hlw := lockedWarm_run ops (initOrchestrator t) (lockedWarm_init t)
    have hlocks : (run (initOrchestrator t) ops).locks = [] := by
      rw [List.eq_nil_iff_forall_not_mem]
      intro n hn
      obtain ⟨sl, hsl, hname, hst⟩ := hlw n hn
      rcases hst with hst | hst <;> rw [h2 sl hsl] at hst <;> cases hst
    have hslots : (run (initOrchestrator t) ops).slots.map
        (fun sl => { sl with state := ModelState.cold }) =
        (run (initOrchestrator t) ops).slots := by
      refine map_eq_self_of_eq ?_
      intro sl hsl
      have h3 := h2 sl hsl
      cases sl with
      | mk nm st lu kw mb =>
        simp only at h3
        rw [show st = ModelState.cold from h3]
    unfold collapse_to_zero
    rw [hslots, ← hlocks, ← h1]

/-- Witness for C5 at the fresh orchestrator: with no worker and no slots,
collapse_to_zero is a no-op. -/
theorem c5_collapse_idempotent_witness :
    (run (initOrchestrator Tier.ronin) []).workerAlive = false ∧
      (∀ sl ∈ (run (initOrchestrator Tier.ronin) []).slots,
        sl.state = ModelState.cold) ∧
      collapse_to_zero false (run (initOrchestrator Tier.ronin) []) =
        run (initOrchestrator Tier.ronin) [] :=
  ⟨by decide, by decide,
   c5_collapse_idempotent.2.2 Tier.ronin [] false (by decide) (by decide)⟩

theorem cand_iff {locks : List String} {c : ModelSlot} :
    evictionCandidate locks c = true ↔
      c.state ≠ ModelState.cold ∧ c.name ∉ locks := by
  constructor
  · intro h
    exact ⟨cand_not_cold h, cand_not_locked h⟩
  · rintro ⟨h1, h2⟩
    rw [evictionCandidate]
    cases hb : locks.contains c.name with
    | true => exact absurd (contains_eq_true_iff.mp hb) h2
    | false => simp [bne_iff_ne, h1]

/-- C4 amended: the admission-time eviction selects its victim among the
slots that are not Cold and not locked, with no regard to pinning, and
among those candidates it takes one with the smallest last_used; exactly
that slot is set Cold and every other name keeps its state.  When no
candidate exists (every non-Cold slot is locked) nothing changes. -/
theorem c4_eviction_lru_unlocked :
    (∀ (s : ResourceOrchestrator) (v : ModelSlot),
        oldestCandidate s.locks s.slots = some v →
        v ∈ s.slots ∧ v.state ≠ ModelState.cold ∧ v.name ∉ s.locks ∧
          (∀ c ∈ s.slots, c.state ≠ ModelState.cold → c.name ∉ s.locks →
            v.last_used ≤ c.last_used) ∧
          state_of v.name (unload_oldest_model s) = some ModelState.cold ∧
          (∀ n : String, n ≠ v.name →
            state_of n (unload_oldest_model s) = state_of n s)) ∧
      (∀ s : ResourceOrchestrator,
        oldestCandidate s.locks s.slots = none →
        (∀ c ∈ s.slots, c.state ≠ ModelState.cold → c.name ∈ s.locks) ∧
          unload_oldest_model s = s) := by
  constructor
  · intro s v hc
    obtain ⟨hv, hcand, hmin⟩ := oldestCandidate_eq_some hc
    refine ⟨hv, cand_not_cold hcand, cand_not_locked hcand, ?_, ?_, ?_⟩
    · intro c hcl hnc hnl
      exact hmin c hcl (cand_iff.mpr ⟨hnc, hnl⟩)
    · unfold unload_oldest_model
      rw [hc]
      unfold state_of setSlotState
      rw [find?_name_map _ (fun x => by split <;> rfl) _ v.name]
      have hsome : (s.slots.find? (fun sl => sl.name == v.name)).isSome =
          true := by
        rw [List.find?_isSome]
        exact ⟨v, hv, beq_self_eq_true v.name⟩
      cases hf : s.slots.find? (fun sl => sl.name == v.name) with
      | none => rw [hf] at hsome; cases hsome
      | some sl =>
        have hb : sl.name = v.name := by
          simpa using List.find?_some hf
        simp [hb]
    · intro n hne
      unfold unload_oldest_model
      rw [hc]
      unfold state_of setSlotState
      rw [find?_name_map _ (fun x => by split <;> rfl) _ n]
      cases hf : s.slots.find? (fun sl => sl.name == n) with
      | none => rfl
      | some sl =>
        have hname : sl.name = n := by simpa using List.find?_some hf
        have hnv : sl.name ≠ v.name := by rw [hname]; exact hne
        simp [hnv]
  · intro s hc
    constructor
    · intro c hcl hnc
      have := oldestCandidate_eq_none hc c hcl
      exact locked_of_not_cand this hnc
    · unfold unload_oldest_model
      rw [hc]

/-- Witness for C4 at the LRU scenario: the selected victim is slot A, the
oldest unlocked non-Cold slot. -/
theorem c4_eviction_lru_unlocked_witness :
    oldestCandidate lruScenario.locks lruScenario.slots =
        some (ModelSlot.mk "A" ModelState.cooling 1 false 1024) ∧
      ((ModelSlot.mk "A" ModelState.cooling 1 false 1024) ∈
          lruScenario.slots ∧
        (ModelSlot.mk "A" ModelState.cooling 1 false 1024).state ≠
          ModelState.cold ∧
        (ModelSlot.mk "A" ModelState.cooling 1 false 1024).name ∉
          lruScenario.locks ∧
        (∀ c ∈ lruScenario.slots, c.state ≠ ModelState.cold →
          c.name ∉ lruScenario.locks →
          (ModelSlot.mk "A" ModelState.cooling 1 false 1024).last_used ≤
            c.last_used) ∧
        state_of (ModelSlot.mk "A" ModelState.cooling 1 false 1024).name
          (unload_oldest_model lruScenario) = some ModelState.cold ∧
        (∀ n : String,
          n ≠ (ModelSlot.mk "A" ModelState.cooling 1 false 1024).name →
          state_of n (unload_oldest_model lruScenario) =
            state_of n lruScenario)) :=
  ⟨by decide,
   c4_eviction_lru_unlocked.1 lruScenario
     (ModelSlot.mk "A" ModelState.cooling 1 false 1024) (by decide)⟩

theorem map_name_of_preserve (g : ModelSlot → ModelSlot)
    (hg : ∀ sl, (g sl).name = sl.name) (l : List ModelSlot) :
    (l.map g).map ModelSlot.name = l.map ModelSlot.name := by
  rw [List.map_map]
  exact List.map_congr_left fun a _ => hg a

theorem length_filter_setCold {l : List ModelSlot} {v : ModelSlot}
    (hnd : (l.map ModelSlot.name).Nodup) (hv : v ∈ l)
    (hnc : v.state ≠ ModelState.cold) :
    ((setSlotState v.name ModelState.cold l).filter
        (fun sl => sl.state != ModelState.cold)).length + 1 =
      (l.filter (fun sl => sl.state != ModelState.cold)).length := by
  induction l with
  | nil => cases hv
  | cons a l ih =>
    rw [List.map_cons, List.nodup_cons] at hnd
    obtain ⟨hna, hnd⟩ := hnd
    unfold setSlotState
    rw [List.map_cons, List.filter_cons, List.filter_cons]
    rcases List.mem_cons.mp hv with rfl | hvl
    · have htail : List.map (fun sl => if sl.name == v.name then
          { sl with state := ModelState.cold } else sl) l = l := by
        refine map_eq_self_of_eq ?_
        intro x hx
        have hxne : (x.name == v.name) = false := by
          rw [beq_eq_false_iff_ne]
          intro he
          refine hna ?_
          rw [← he]
          exact List.mem_map_of_mem ModelSlot.name hx
        simp [hxne]
      rw [htail]
      have hhead : (if v.name == v.name then
          ({ v with state := ModelState.cold } : ModelSlot) else v) =
          { v with state := ModelState.cold } := by simp
      rw [hhead]
      have hvb : (v.state != ModelState.cold) = true := bne_iff_ne.mpr hnc
      simp [hvb]
    · have hane : (a.name == v.name) = false := by
        rw [beq_eq_false_iff_ne]
        intro he
        refine hna ?_
        rw [he]
        exact List.mem_map_of_mem ModelSlot.name hvl
      have hheada : (if a.name == v.name then
          ({ a with state := ModelState.cold } : ModelSlot) else a) = a := by
        simp [hane]
      rw [hheada]
      have hih := ih hnd hvl
      by_cases hpa : (a.state != ModelState.cold) = true
      · unfold setSlotState at hih
        rw [if_pos hpa, if_pos hpa]
        simp only [List.length_cons]
        omega
      · rw [if_neg hpa, if_neg hpa]
        exact hih

theorem length_filter_append_cold (l : List ModelSlot) (c : ModelSlot)
    (hc : c.state = ModelState.cold) :
    ((l ++ [c]).filter (fun sl => sl.state != ModelState.cold)).length =
      (l.filter (fun sl => sl.state != ModelState.cold)).length := by
  rw [List.filter_append]
  have hone : [c].filter (fun sl => sl.state != ModelState.cold) = [] := by
    simp [hc]
  rw [hone, List.append_nil]

theorem length_filter_warm_map {l : List ModelSlot} {name : String}
    {k : Bool} {now : Nat} (hnd : (l.map ModelSlot.name).Nodup) :
    ((l.map (fun sl => if sl.name == name then
        { sl with last_used := now, keep_warm := k
                  , state := ModelState.warm } else sl)).filter
        (fun sl => sl.state != ModelState.cold)).length ≤
      (l.filter (fun sl => sl.state != ModelState.cold)).length + 1 := by
  induction l with
  | nil => simp
  | cons a l ih =>
    rw [List.map_cons, List.nodup_cons] at hnd
    obtain ⟨hna, hnd⟩ := hnd
    rw [List.map_cons, List.filter_cons, List.filter_cons]
    by_cases hm : (a.name == name) = true
    · have hmn : a.name = name := by simpa using hm
      have htail : List.map (fun sl => if sl.name == name then
          { sl with last_used := now, keep_warm := k
                  , state := ModelState.warm } else sl) l = l := by
        refine map_eq_self_of_eq ?_
        intro x hx
        have hxne : (x.name == name) = false := by
          rw [beq_eq_false_iff_ne]
          intro he
          refine hna ?_
          rw [hmn, ← he]
          exact List.mem_map_of_mem ModelSlot.name hx
        simp [hxne]
      rw [htail]
      have hhead : (if a.name == name then
          ({ a with last_used := now, keep_warm := k
                  , state := ModelState.warm } : ModelSlot) else a) =
          { a with last_used := now, keep_warm := k
                  , state := ModelState.warm } := by simp [hm]
      rw [hhead]
      by_cases hpa : (a.state != ModelState.cold) = true
      · rw [if_pos (by rfl), if_pos hpa]
        simp only [List.length_cons]
        omega
      · rw [if_pos (by rfl), if_neg hpa]
        simp only [List.length_cons]
        omega
    · have hm2 : (a.name == name) = false := by
        cases hb2 : (a.name == name)
        · rfl
        · exact absurd hb2 hm
      have hhead : (if a.name == name then
          ({ a with last_used := now, keep_warm := k
                  , state := ModelState.warm } : ModelSlot) else a) = a := by
        simp [hm2]
      rw [hhead]
      have hih := ih hnd
      by_cases hpa : (a.state != ModelState.cold) = true
      · rw [if_pos hpa, if_pos hpa]
        simp only [List.length_cons]
        omega
      · rw [if_neg hpa, if_neg hpa]
        exact hih

theorem non_cold_ensure (name : String) (k : Bool) (now : Nat)
    (s : ResourceOrchestrator) :
    non_cold_count (ensure_slot name k now s) = non_cold_count s := by
  unfold ensure_slot
  split
  · rfl
  · unfold non_cold_count
    exact length_filter_append_cold _ _ rfl

theorem nodup_ensure (name : String) (k : Bool) (now : Nat)
    (s : ResourceOrchestrator)
    (hnd : (s.slots.map ModelSlot.name).Nodup) :
    ((ensure_slot name k now s).slots.map ModelSlot.name).Nodup := by
  unfold ensure_slot
  split
  · exact hnd
  · next hany =>
    rw [List.map_append, List.nodup_append]
    refine ⟨hnd, by simp, ?_⟩
    intro a ha hb
    have haname : a = name := by simpa using hb
    obtain ⟨x, hx, hxa⟩ := List.mem_map.mp ha
    exact hany (List.any_eq_true.mpr
      ⟨x, hx, by rw [beq_iff_eq, hxa, haname]⟩)

theorem non_cold_warm_lock (name : String) (k : Bool) (now : Nat)
    (s : ResourceOrchestrator)
    (hnd : (s.slots.map ModelSlot.name).Nodup) :
    non_cold_count (warm_and_lock name k now s) ≤ non_cold_count s + 1 := by
  unfold warm_and_lock non_cold_count
  exact length_filter_warm_map hnd

theorem non_cold_unload_some {s : ResourceOrchestrator} {v : ModelSlot}
    (hnd : (s.slots.map ModelSlot.name).Nodup)
    (hc : oldestCandidate s.locks s.slots = some v) :
    non_cold_count (unload_oldest_model s) + 1 = non_cold_count s := by
  obtain ⟨hv, hcand, _⟩ := oldestCandidate_eq_some hc
  unfold unload_oldest_model
  rw [hc]
  unfold non_cold_count
  exact length_filter_setCold hnd hv (cand_not_cold hcand)

theorem nodup_unload {s : ResourceOrchestrator}
    (hnd : (s.slots.map ModelSlot.name).Nodup) :
    ((unload_oldest_model s).slots.map ModelSlot.name).Nodup := by
  unfold unload_oldest_model
  cases oldestCandidate s.locks s.slots with
  | none => exact hnd
  | some v =>
    unfold setSlotState
    rw [map_name_of_preserve _ (fun x => by split <;> rfl)]
    exact hnd

/-- C1 amended: request_model never increases the non-Cold count by more
than one; when the live tier cannot access multi_lora, the count after
request_model returns is bounded by the larger of max 1 maxConcurrent and
the pre-request count, except when every non-Cold slot is locked at
admission time: then the eviction attempt has no victim, the request
proceeds anyway, and the count may end one above its pre-request value. -/
theorem c1_request_count_bound (t : Tier) (name : String) (k : Bool)
    (now : Nat) (s : ResourceOrchestrator)
    (hacc : can_access t "multi_lora" = false)
    (hnd : (s.slots.map ModelSlot.name).Nodup) :
    non_cold_count (request_model t name k now s) ≤
        max (max 1 s.maxConcurrent) (non_cold_count s) ∨
      ((∀ sl ∈ s.slots, sl.state ≠ ModelState.cold → sl.name ∈ s.locks) ∧
        non_cold_count (request_model t name k now s) ≤
          non_cold_count s + 1) := by
  by_cases hge : non_cold_count s ≥ s.maxConcurrent
  · have hs1 : admission_evict t s = unload_oldest_model s := by
      simp [admission_evict, hge, hacc]
    cases hcand : oldestCandidate s.locks s.slots with
    | some v =>
      left
      have h1 := non_cold_unload_some hnd hcand
      have h2 := non_cold_ensure name k now (unload_oldest_model s)
      have h3 := non_cold_warm_lock name k now
        (ensure_slot name k now (unload_oldest_model s))
        (nodup_ensure name k now _ (nodup_unload hnd))
      unfold request_model
      rw [hs1]
      have hb : non_cold_count (warm_and_lock name k now
          (ensure_slot name k now (unload_oldest_model s))) ≤
          non_cold_count s := by omega
      exact le_trans hb (le_max_right _ _)
    | none =>
      right
      have hunl : unload_oldest_model s = s := by
        unfold unload_oldest_model
        rw [hcand]
      constructor
      · intro sl hsl hnc
        exact locked_of_not_cand (oldestCandidate_eq_none hcand sl hsl) hnc
      · have h2 := non_cold_ensure name k now s
        have h3 := non_cold_warm_lock name k now (ensure_slot name k now s)
          (nodup_ensure name k now s hnd)
        unfold request_model
        rw [hs1, hunl]
        omega
  · left
    have hs1 : admission_evict t s = s := by
      simp [admission_evict, hge]
    have h2 := non_cold_ensure name k now s
    have h3 := non_cold_warm_lock name k now (ensure_slot name k now s)
      (nodup_ensure name k now s hnd)
    have hlt : non_cold_count s < s.maxConcurrent := Nat.lt_of_not_ge hge
    unfold request_model
    rw [hs1]
    have hb : non_cold_count (warm_and_lock name k now
        (ensure_slot name k now s)) ≤ s.maxConcurrent := by omega
    exact le_trans hb (le_trans (le_max_right 1 _) (le_max_left _ _))

/-- Witness for C1 at the counterexample trace: requesting m2 on the
Base-tier orchestrator that still holds the lock on m1 lands in the
all-locked branch, and the count grows by one. -/
theorem c1_request_count_bound_witness :
    can_access Tier.ronin "multi_lora" = false ∧
      ((run (initOrchestrator Tier.ronin)
        [Op.request Tier.ronin "m1" false 0]).slots.map
          ModelSlot.name).Nodup ∧
      (non_cold_count (request_model Tier.ronin "m2" false 1
          (run (initOrchestrator Tier.ronin)
            [Op.request Tier.ronin "m1" false 0])) ≤
        max (max 1 (run (initOrchestrator Tier.ronin)
            [Op.request Tier.ronin "m1" false 0]).maxConcurrent)
          (non_cold_count (run (initOrchestrator Tier.ronin)
            [Op.request Tier.ronin "m1" false 0])) ∨
      ((∀ sl ∈ (run (initOrchestrator Tier.ronin)
            [Op.request Tier.ronin "m1" false 0]).slots,
          sl.state ≠ ModelState.cold →
          sl.name ∈ (run (initOrchestrator Tier.ronin)
            [Op.request Tier.ronin "m1" false 0]).locks) ∧
        non_cold_count (request_model Tier.ronin "m2" false 1
            (run (initOrchestrator Tier.ronin)
              [Op.request Tier.ronin "m1" false 0])) ≤
          non_cold_count (run (initOrchestrator Tier.ronin)
            [Op.request Tier.ronin "m1" false 0]) + 1)) :=
  ⟨by decide, by decide,
   c1_request_count_bound Tier.ronin "m2" false 1 _ (by decide) (by decide)⟩

theorem load_model_ok (w : WorkerState) (path : String) (lf : Option String)
    (h : lf = none ∨ w.loadedModel = some path) :
    ∃ w2, load_model w path lf = Except.ok w2 ∧
      w2.loadedModel = some path := by
  unfold load_model
  rcases h with rfl | h
  · by_cases hl : (w.loadedModel == some path) = true
    · rw [if_pos hl]
      exact ⟨w, rfl, by simpa using hl⟩
    · rw [if_neg hl]
      exact ⟨_, rfl, rfl⟩
  · rw [if_pos (by rw [beq_iff_eq]; exact h)]
    exact ⟨w, rfl, h⟩

theorem load_model_fails (w : WorkerState) (path : String) (e : String)
    (h : w.loadedModel ≠ some path) :
    load_model w path (some e) = Except.error e := by
  unfold load_model
  rw [if_neg]
  intro hb
  exact h (by simpa using hb)

/-- C7: an exception thrown by the inference runtime during a generate
task (the llama invocation) is caught, converted into an error result
carrying the error string and the degraded choice text, and the run loop
goes on to process the remaining tasks; only a model-loading failure
escapes the per-task handler, is emitted as a single terminal error on the
result channel, and terminates the run loop. -/
theorem c7_worker_error_isolation (w : WorkerState) (path : String)
    (lf : Option String) (p : PromptSpec) (ts : List WorkerTask)
    (e : String) :
    (p.llmFails = some e → (lf = none ∨ w.loadedModel = some path) →
      ∃ w2, worker_run w (WorkerTask.generate path lf p :: ts) =
        WorkerResult.gen
          { error := some e, text := "Generation failed: " ++ e } ::
          worker_run w2 ts) ∧
      (w.loadedModel ≠ some path → lf = some e →
        worker_run w (WorkerTask.generate path lf p :: ts) =
          [WorkerResult.fatal e]) := by
  constructor
  · intro hp hload
    obtain ⟨w2, hw2, _⟩ := load_model_ok w path lf hload
    refine ⟨w2, ?_⟩
    conv_lhs => unfold worker_run
    dsimp only
    unfold generate_task
    rw [hw2, hp]
  · intro hne hlf
    subst hlf
    unfold worker_run generate_task
    dsimp only
    rw [load_model_fails w path e hne]

/-- Witness for C7: a runtime failure on the first task leaves an error
result and the loop answers the next probe; a loading failure is terminal. -/
theorem c7_worker_error_isolation_witness :
    (∃ w2, worker_run (WorkerState.mk none)
        [WorkerTask.generate "m" none (PromptSpec.mk "p" (some "boom") "t"),
         WorkerTask.statusProbe] =
        WorkerResult.gen { error := some "boom"
                         , text := "Generation failed: " ++ "boom" } ::
          worker_run w2 [WorkerTask.statusProbe]) ∧
      worker_run (WorkerState.mk none)
        [WorkerTask.generate "m" (some "dead")
          (PromptSpec.mk "p" none "t"),
         WorkerTask.statusProbe] = [WorkerResult.fatal "dead"] :=
  ⟨(c7_worker_error_isolation (WorkerState.mk none) "m" none
      (PromptSpec.mk "p" (some "boom") "t") [WorkerTask.statusProbe]
      "boom").1 rfl (Or.inl rfl),
   (c7_worker_error_isolation (WorkerState.mk none) "m" (some "dead")
      (PromptSpec.mk "p" none "t") [WorkerTask.statusProbe]
      "dead").2 (by decide) rfl⟩

theorem handle_batch_loaded (path : String) (lf : Option String)
    (ps : List PromptSpec) : ∀ (i : Nat) (w : WorkerState),
    w.loadedModel = some path →
    handle_batch w path lf ps i =
      Except.ok (spec_batch_results i ps, w) := by
  induction ps with
  | nil => intro i w h; rfl
  | cons p ps ih =>
    intro i w h
    have hload : load_model w path lf = Except.ok w := by
      unfold load_model
      rw [if_pos (by rw [beq_iff_eq]; exact h)]
    unfold handle_batch generate_task
    rw [hload]
    cases hf : p.llmFails <;>
      simp [ih (i + 1) w h, spec_batch_results, expected_output, hf]

theorem spec_batch_results_length (i : Nat) (ps : List PromptSpec) :
    (spec_batch_results i ps).length = ps.length := by
  induction ps generalizing i with
  | nil => rfl
  | cons p ps ih => simp [spec_batch_results, ih]

theorem spec_batch_results_get (ps : List PromptSpec) :
    ∀ (i j : Nat) (p : PromptSpec), ps[j]? = some p →
      (spec_batch_results i ps)[j]? =
        some { branch := i + j, prompt := p.prompt,
               output := expected_output p } := by
  induction ps with
  | nil => intro i j p hp; simp at hp
  | cons q ps ih =>
    intro i j p hp
    cases j with
    | zero =>
      simp only [List.getElem?_cons_zero, Option.some.injEq] at hp
      subst hp
      simp [spec_batch_results]
    | succ j =>
      simp only [List.getElem?_cons_succ] at hp
      have hrec := ih (i + 1) j p hp
      have harith : i + 1 + j = i + (j + 1) := by omega
      rw [harith] at hrec
      simpa [spec_batch_results, List.getElem?_cons_succ] using hrec

/-- C9: whenever model loading cannot fail (the model is already resident
or loading succeeds), a batchGenerate task yields exactly one result per
prompt, in input order, each tagged with its zero-based branch index; a
runtime failure in one branch produces an error entry for that branch
while every other branch is still executed and its result included. -/
theorem c9_batch_order_and_isolation (w : WorkerState) (path : String)
    (lf : Option String) (ps : List PromptSpec) (ts : List WorkerTask)
    (h : lf = none ∨ w.loadedModel = some path) :
    ∃ w2, handle_batch w path lf ps 0 =
        Except.ok (spec_batch_results 0 ps, w2) ∧
      worker_run w (WorkerTask.batchGenerate path lf ps :: ts) =
        WorkerResult.batch (spec_batch_results 0 ps) :: worker_run w2 ts ∧
      (spec_batch_results 0 ps).length = ps.length ∧
      ∀ (j : Nat) (p : PromptSpec), ps[j]? = some p →
        (spec_batch_results 0 ps)[j]? =
          some { branch := j, prompt := p.prompt,
                 output := expected_output p } := by
  have hget : ∀ (j : Nat) (p : PromptSpec), ps[j]? = some p →
      (spec_batch_results 0 ps)[j]? =
        some { branch := j, prompt := p.prompt,
               output := expected_output p } := by
    intro j p hp
    have hg := spec_batch_results_get ps 0 j p hp
    simpa using hg
  have hbatch : ∃ w2, handle_batch w path lf ps 0 =
      Except.ok (spec_batch_results 0 ps, w2) := by
    cases ps with
    | nil => exact ⟨w, rfl⟩
    | cons p ps =>
      obtain ⟨w1, hw1, hw1l⟩ := load_model_ok w path lf h
      refine ⟨w1, ?_⟩
      unfold handle_batch generate_task
      rw [hw1]
      cases hf : p.llmFails <;>
        simp [handle_batch_loaded path lf ps 1 w1 hw1l,
          spec_batch_results, expected_output, hf]
  obtain ⟨w2, hw2⟩ := hbatch
  refine ⟨w2, hw2, ?_, spec_batch_results_length 0 ps, hget⟩
  conv_lhs => unfold worker_run
  dsimp only
  rw [hw2]

/-- Witness for C9: three branches, the middle one failing in the runtime;
all three results are present, in order, tagged 0, 1, 2. -/
theorem c9_batch_order_and_isolation_witness :
    ∃ w2, handle_batch (WorkerState.mk none) "m" none
        [PromptSpec.mk "a" none "outA", PromptSpec.mk "b" (some "err") "t",
         PromptSpec.mk "c" none "outC"] 0 =
        Except.ok (spec_batch_results 0
          [PromptSpec.mk "a" none "outA", PromptSpec.mk "b" (some "err") "t",
           PromptSpec.mk "c" none "outC"], w2) ∧
      worker_run (WorkerState.mk none)
        (WorkerTask.batchGenerate "m" none
          [PromptSpec.mk "a" none "outA", PromptSpec.mk "b" (some "err") "t",
           PromptSpec.mk "c" none "outC"] :: [WorkerTask.poisonPill]) =
        WorkerResult.batch (spec_batch_results 0
          [PromptSpec.mk "a" none "outA", PromptSpec.mk "b" (some "err") "t",
           PromptSpec.mk "c" none "outC"]) ::
          worker_run w2 [WorkerTask.poisonPill] ∧
      (spec_batch_results 0
        [PromptSpec.mk "a" none "outA", PromptSpec.mk "b" (some "err") "t",
         PromptSpec.mk "c" none "outC"]).length =
        ([PromptSpec.mk "a" none "outA", PromptSpec.mk "b" (some "err") "t",
          PromptSpec.mk "c" none "outC"] : List PromptSpec).length ∧
      ∀ (j : Nat) (p : PromptSpec),
        ([PromptSpec.mk "a" none "outA", PromptSpec.mk "b" (some "err") "t",
          PromptSpec.mk "c" none "outC"] : List PromptSpec)[j]? = some p →
        (spec_batch_results 0
          [PromptSpec.mk "a" none "outA", PromptSpec.mk "b" (some "err") "t",
           PromptSpec.mk "c" none "outC"])[j]? =
          some { branch := j, prompt := p.prompt,
                 output := expected_output p } :=
  c9_batch_order_and_isolation (WorkerState.mk none) "m" none
    [PromptSpec.mk "a" none "outA", PromptSpec.mk "b" (some "err") "t",
     PromptSpec.mk "c" none "outC"] [WorkerTask.poisonPill] (Or.inl rfl)

end HearthWriter
